import Mathlib

/-!
# simple-todo-list: the request handlers of `index.js`

A shallow embedding of the four Express route handlers of `index.js` and of the
helpers they call, followed by the properties proved about them.

Modelling conventions.

* The content of `todos.json` is the array `readTodos` returns, a `List Todo`.
* A stored id is a JavaScript number with an integer value: an integer that an
  IEEE 754 double represents (`JsInt`). Arithmetic on ids and `parseInt` round to
  the nearest double, ties to even (`roundNat`).
* JavaScript strings are `String`; `trim` and `parseInt` are defined from the
  ECMAScript algorithms on the list of characters.
* The environment of a handler is given by its inputs: `maxArgs`, the largest
  number of arguments the engine accepts in the call `Math.max(...ids)` (a longer
  spread throws a `RangeError`), `w`, how `fs.writeFileSync` ends, and `now`, the
  string `new Date().toISOString()`.
* A handler either sends a response or lets an exception escape to the framework;
  the latter is the outcome `threw`.
-/

namespace TodoApi

/-! ## Numbers -/

/-- The number of times `a` is halved until it is below `2 ^ 53`: the exponent of
the unit in the last place of the double nearest to `a`. The first argument bounds
the recursion and is `a` itself. -/
def halvings : Nat → Nat → Nat
  | 0, _ => 0
  | fuel + 1, a => if a < 2 ^ 53 then 0 else halvings fuel (a / 2) + 1

/-- The natural number nearest to `a` that has at most 53 significant bits, ties
going to the even significand: the rounding of IEEE 754 doubles, short of the
overflow to `Infinity`. -/
def roundNat (a : Nat) : Nat :=
  let e := halvings a a
  let q := a / 2 ^ e
  let r := a % 2 ^ e
  if e = 0 then a
  else if r < 2 ^ (e - 1) ∨ (r = 2 ^ (e - 1) ∧ q % 2 = 0) then q * 2 ^ e else (q + 1) * 2 ^ e

/-- The rounding of an integer to a double, short of the overflow to `Infinity`. -/
def toDouble (n : Int) : Int := n.sign * (roundNat n.natAbs : Int)

/-- The magnitude `2 ^ 1024`, from which on a rounded value overflows to `Infinity`. -/
def overflowBound : Nat := (2 ^ 256) ^ 4

/-- The integers that are values of finite doubles. -/
def isDouble (n : Int) : Prop := roundNat n.natAbs = n.natAbs ∧ n.natAbs < overflowBound

instance isDoubleDecidable (n : Int) : Decidable (isDouble n) :=
  inferInstanceAs (Decidable (_ ∧ _))

/-- A JavaScript number with an integer value, as the `id` of a stored record is. -/
abbrev JsInt : Type := { n : Int // isDouble n }

/-- The double that an integer result denotes. The second branch stands for the
overflow to `Infinity`; the successor of a stored id never takes it
(`toDouble_succ`). -/
def toJsInt (n : Int) : JsInt :=
  if h : isDouble (toDouble n) then ⟨toDouble n, h⟩ else ⟨0, by decide⟩

instance jsIntOfNat (n : Nat) : OfNat JsInt n := ⟨toJsInt n⟩

/-- The result of `parseInt`: not-a-number, an infinity, or a finite double with an
integer value. -/
inductive JsNumber where
  | nan
  | infinity (negative : Bool)
  | finite (n : Int)
deriving DecidableEq

/-! ## Data model -/

/-- One element of the array stored in `todos.json`. -/
structure Todo where
  id : JsInt
  text : String
  completed : Bool
  createdAt : String
deriving DecidableEq

/-- The value bound by `const { text } = req.body`: any JSON value, or `undefined`
when the body has no such field. The handler only tests the truthiness of a value
that is not a string and looks up its `trim`, which is never callable; so numbers
are kept as integers, and arrays and objects carry no payload. -/
inductive JsValue where
  | undefined
  | null
  | bool (b : Bool)
  | number (n : Int)
  | string (s : String)
  | array
  | object
deriving DecidableEq

/-- The JSON document passed to `res.json`. -/
inductive Body where
  | todos (ts : List Todo)
  | todo (t : Todo)
  | error (msg : String)
  | message (msg : String)
deriving DecidableEq

/-- An exception that no `try` of `index.js` catches. -/
inductive JsError where
  | typeError
  | rangeError
deriving DecidableEq

/-- What a handler does with a request: it sends a status and a JSON body, or an
exception leaves the handler without a response having been sent by it. -/
inductive Outcome where
  | responded (status : Nat) (body : Body)
  | threw (error : JsError)
deriving DecidableEq

/-- How the call of `fs.writeFileSync` in `writeTodos` ends: it returns, or it throws
before the file is opened, or it throws after the file was opened, which truncates
it (flag `w`). -/
inductive WriteResult where
  | written
  | failedBeforeOpen
  | failedAfterOpen
deriving DecidableEq

/-! ## JavaScript primitives used by the handlers -/

/-- The code points ECMAScript calls WhiteSpace or LineTerminator; they are what
`String.prototype.trim` strips and what `parseInt` skips. -/
def isWhiteSpace (c : Char) : Bool :=
  let n := c.toNat
  n == 0x09 || n == 0x0A || n == 0x0B || n == 0x0C || n == 0x0D || n == 0x20 ||
  n == 0xA0 || n == 0x1680 || (0x2000 ≤ n && n ≤ 0x200A) || n == 0x2028 ||
  n == 0x2029 || n == 0x202F || n == 0x205F || n == 0x3000 || n == 0xFEFF

/-- The characters of `s.trim()`. -/
def trimChars (cs : List Char) : List Char :=
  ((cs.dropWhile isWhiteSpace).reverse.dropWhile isWhiteSpace).reverse

/-- The method `String.prototype.trim`. -/
def trim (s : String) : String := String.mk (trimChars s.data)

/-- The operator `!` on a JSON value or `undefined`: true on the falsy values
`undefined`, `null`, `false`, `0` and the empty string. -/
def jsNot : JsValue → Bool
  | .undefined => true
  | .null => true
  | .bool b => !b
  | .number n => n == 0
  | .string s => s == ""
  | .array => false
  | .object => false

/-- The value of a digit in the given radix (10 or 16), if the character is one. -/
def digitValue (radix : Nat) (c : Char) : Option Nat :=
  let n := c.toNat
  if 0x30 ≤ n ∧ n ≤ 0x39 then some (n - 0x30)
  else if radix = 16 ∧ 0x61 ≤ n ∧ n ≤ 0x66 then some (n - 0x61 + 10)
  else if radix = 16 ∧ 0x41 ≤ n ∧ n ≤ 0x46 then some (n - 0x41 + 10)
  else none

/-- The number a list of digits denotes, most significant digit first. -/
def digitsValue (radix : Nat) (ds : List Char) : Nat :=
  ds.foldl (fun acc c => acc * radix + (digitValue radix c).getD 0) 0

/-- The sign step of `parseInt`: a leading `-` or `+` is consumed. -/
def parseSign : List Char → Int × List Char
  | '-' :: rest => (-1, rest)
  | '+' :: rest => (1, rest)
  | cs => (1, cs)

/-- The radix step of `parseInt` called without a radix: a leading `0x` or `0X`
is consumed and selects radix 16, otherwise the radix is 10. -/
def parseRadix : List Char → Nat × List Char
  | '0' :: 'x' :: rest => (16, rest)
  | '0' :: 'X' :: rest => (16, rest)
  | cs => (10, cs)

/-- The function `parseInt(string)` with the radix left out: leading white space
is skipped, then a sign and a hexadecimal marker are read, then the longest run of
digits. An empty run gives not-a-number; otherwise the result is the double nearest
to the number the run denotes, an infinity when that overflows. -/
def parseInt (s : String) : JsNumber :=
  let (sign, afterSign) := parseSign (s.data.dropWhile isWhiteSpace)
  let (radix, afterRadix) := parseRadix afterSign
  let z := afterRadix.takeWhile (fun c => (digitValue radix c).isSome)
  if z.isEmpty then .nan
  else
    let m := roundNat (digitsValue radix z)
    if m < overflowBound then .finite (sign * (m : Int)) else .infinity (sign == -1)

/-- The characters at which `parseInt` starts to read digits: those of the string
after its leading white space and one optional sign. -/
def digitsStart (s : String) : List Char :=
  (parseSign (s.data.dropWhile isWhiteSpace)).2

/-- The comparison `t.id === id` for a stored id and a parsed one: not-a-number
and the infinities are equal to no stored id. -/
def strictEq (a : JsInt) (b : JsNumber) : Bool :=
  match b with
  | .finite n => a.val == n
  | _ => false

/-- The method `Array.prototype.findIndex`; `none` stands for the result `-1`. -/
def findIndex (p : Todo → Bool) : List Todo → Option Nat
  | [] => none
  | t :: ts => if p t then some 0 else (findIndex p ts).map (· + 1)

/-- The expression `Math.max(...todos.map(t => t.id))` for a non-empty array whose
first id is `first` and whose other ids are `rest`. The spread passes every id as
an argument of the call: with more than `maxArgs` of them the engine throws a
`RangeError`, which is the result `none`. -/
def mathMax (maxArgs : Nat) (first : Int) (rest : List Int) : Option Int :=
  if rest.length + 1 ≤ maxArgs then some (rest.foldl max first) else none

/-! ## The store -/

/-- The function `readTodos`: the parsed content of the file. -/
def readTodos (file : List Todo) : List Todo := file

/-- The function `writeTodos`. When `fs.writeFileSync` returns, the file holds
`todos` and the result is `true`. When it throws, the result is `false`: the file
keeps its content if it was not opened, and is left truncated if it was, which
`JSON.parse` rejects, so that `readTodos` returns `[]` from then on. -/
def writeTodos (todos : List Todo) (w : WriteResult) (file : List Todo) : Bool × List Todo :=
  match w with
  | .written => (true, todos)
  | .failedBeforeOpen => (false, file)
  | .failedAfterOpen => (false, [])

/-! ## The route handlers

Each handler maps the request, the environment and the file content to the
outcome and the file content afterwards. -/

/-- The handler `app.get('/api/todos')`. -/
def getTodos (file : List Todo) : Outcome × List Todo :=
  (.responded 200 (.todos (readTodos file)), file)

/-- The id computed as `nextId` by `app.post('/api/todos')`: the sum is a sum of
doubles. The result `none` is the `RangeError` of `Math.max`. -/
def nextId (maxArgs : Nat) (todos : List Todo) : Option JsInt :=
  match todos.map (·.id.val) with
  | [] => some 1
  | first :: rest => (mathMax maxArgs first rest).map (fun m => toJsInt (m + 1))

/-- The handler `app.post('/api/todos')`. -/
def postTodo (maxArgs : Nat) (text : JsValue) (now : String) (w : WriteResult)
    (file : List Todo) : Outcome × List Todo :=
  if jsNot text then (.responded 400 (.error "Todo text is required"), file)
  else
    match text with
    | .string s =>
      if trim s == "" then (.responded 400 (.error "Todo text is required"), file)
      else
        let todos := readTodos file
        match nextId maxArgs todos with
        | none => (.threw .rangeError, file)
        | some id =>
          let newTodo : Todo :=
            { id := id, text := trim s, completed := false, createdAt := now }
          let todos := todos ++ [newTodo]
          match writeTodos todos w file with
          | (true, file') => (.responded 201 (.todo newTodo), file')
          | (false, file') => (.responded 500 (.error "Failed to save todo"), file')
    | _ => (.threw .typeError, file)

/-- The handler `app.put('/api/todos/:id')`; `param` is `req.params.id`. -/
def putTodo (param : String) (w : WriteResult) (file : List Todo) : Outcome × List Todo :=
  let id := parseInt param
  let todos := readTodos file
  match findIndex (fun t => strictEq t.id id) todos with
  | none => (.responded 404 (.error "Todo not found"), file)
  | some todoIndex =>
    match todos[todoIndex]? with
    | none => (.threw .typeError, file)
    | some t =>
      let t' : Todo := { t with completed := !t.completed }
      let todos := todos.set todoIndex t'
      match writeTodos todos w file with
      | (true, file') => (.responded 200 (.todo t'), file')
      | (false, file') => (.responded 500 (.error "Failed to update todo"), file')

/-- The handler `app.delete('/api/todos/:id')`; `param` is `req.params.id`. -/
def deleteTodo (param : String) (w : WriteResult) (file : List Todo) : Outcome × List Todo :=
  let id := parseInt param
  let todos := readTodos file
  let filteredTodos := todos.filter (fun t => !strictEq t.id id)
  if todos.length == filteredTodos.length then
    (.responded 404 (.error "Todo not found"), file)
  else
    match writeTodos filteredTodos w file with
    | (true, file') => (.responded 200 (.message "Todo deleted successfully"), file')
    | (false, file') => (.responded 500 (.error "Failed to delete todo"), file')

/-! ## Sequences of requests -/

/-- A request to the API. -/
inductive Request where
  | list
  | create (text : JsValue) (now : String)
  | toggle (param : String)
  | delete (param : String)
deriving DecidableEq

/-- The route table: one request served with write result `w`. -/
def handle (maxArgs : Nat) (req : Request) (w : WriteResult) (file : List Todo) :
    Outcome × List Todo :=
  match req with
  | .list => getTodos file
  | .create text now => postTodo maxArgs text now w file
  | .toggle param => putTodo param w file
  | .delete param => deleteTodo param w file

/-- Serves the requests in order, each with its own write result; the result is
the list of outcomes and the final file content. -/
def serve (maxArgs : Nat) : List (Request × WriteResult) → List Todo → List Outcome × List Todo
  | [], file => ([], file)
  | (req, w) :: rest, file =>
    let (out, file') := handle maxArgs req w file
    let (outs, final) := serve maxArgs rest file'
    (out :: outs, final)

/-- The ids of a collection, in order. -/
def ids (todos : List Todo) : List Int := todos.map (·.id.val)

/-! ## Auxiliary lemmas: rounding -/

theorem halvings_spec (fuel a : Nat) (h : a ≤ fuel) :
    (a < 2 ^ 53 → halvings fuel a = 0) ∧
    (2 ^ 53 ≤ a → 1 ≤ halvings fuel a ∧ 2 ^ 52 ≤ a / 2 ^ halvings fuel a ∧
      a / 2 ^ halvings fuel a < 2 ^ 53) := by
  induction fuel generalizing a with
  | zero =>
    refine ⟨fun _ => rfl, fun ha => ?_⟩
    omega
  | succ f ih =>
    refine ⟨fun ha => by rw [halvings, if_pos ha], fun ha => ?_⟩
    have hnot : ¬ a < 2 ^ 53 := by omega
    have hhalf : a / 2 ≤ f := by omega
    have hstep : halvings (f + 1) a = halvings f (a / 2) + 1 := by rw [halvings, if_neg hnot]
    rw [hstep]
    obtain ⟨hsmall, hbig⟩ := ih (a / 2) hhalf
    by_cases hlt : a / 2 < 2 ^ 53
    · rw [hsmall hlt]
      refine ⟨le_refl _, ?_, ?_⟩
      · simp only [zero_add, pow_one]; omega
      · simp only [zero_add, pow_one]; exact hlt
    · obtain ⟨_, h2, h3⟩ := hbig (by omega)
      have hdiv : a / 2 ^ (halvings f (a / 2) + 1) = a / 2 / 2 ^ halvings f (a / 2) := by
        rw [pow_succ', Nat.div_div_eq_div_mul]
      rw [hdiv]
      exact ⟨by omega, h2, h3⟩

theorem halvings_unique (Q E R : Nat) (hQ1 : 2 ^ 52 ≤ Q) (hQ2 : Q < 2 ^ 53) (hR : R < 2 ^ E) :
    halvings (Q * 2 ^ E + R) (Q * 2 ^ E + R) = E := by
  obtain ⟨hsmall, hbig⟩ := halvings_spec (Q * 2 ^ E + R) (Q * 2 ^ E + R) (le_refl _)
  have hpos : 0 < 2 ^ E := Nat.two_pow_pos _
  have hlow : 2 ^ 52 * 2 ^ E ≤ Q * 2 ^ E + R :=
    le_trans (Nat.mul_le_mul_right _ hQ1) (Nat.le_add_right _ _)
  have hupp : Q * 2 ^ E + R < 2 ^ 53 * 2 ^ E := by
    have h1 : (Q + 1) * 2 ^ E ≤ 2 ^ 53 * 2 ^ E := Nat.mul_le_mul_right _ hQ2
    have h2 : (Q + 1) * 2 ^ E = Q * 2 ^ E + 2 ^ E := by ring
    omega
  cases E with
  | zero =>
    apply hsmall
    simp only [pow_zero, mul_one] at hupp
    simpa using hupp
  | succ k =>
    have hge : 2 ^ 53 ≤ Q * 2 ^ (k + 1) + R := by
      have h1 : 2 ^ 52 * 2 ^ 1 ≤ 2 ^ 52 * 2 ^ (k + 1) :=
        Nat.mul_le_mul_left _ (Nat.pow_le_pow_right (by decide) (by omega))
      have h2 : (2 : Nat) ^ 52 * 2 ^ 1 = 2 ^ 53 := by norm_num
      omega
    obtain ⟨_, h2, h3⟩ := hbig hge
    generalize halvings (Q * 2 ^ (k + 1) + R) (Q * 2 ^ (k + 1) + R) = e at h2 h3 ⊢
    generalize Q * 2 ^ (k + 1) + R = a at hlow hupp h2 h3
    have he : 0 < 2 ^ e := Nat.two_pow_pos _
    have h2' : 2 ^ 52 * 2 ^ e ≤ a := (Nat.le_div_iff_mul_le he).1 h2
    have h3' : a < 2 ^ 53 * 2 ^ e := (Nat.div_lt_iff_lt_mul he).1 h3
    by_contra hne
    rcases Nat.lt_or_gt_of_ne hne with hlt | hgt
    · -- e < k + 1
      have h4 : 2 ^ (e + 1) ≤ 2 ^ (k + 1) := Nat.pow_le_pow_right (by decide) hlt
      have h5 : 2 ^ 53 * 2 ^ e = 2 ^ 52 * 2 ^ (e + 1) := by rw [pow_succ]; ring
      have h6 : 2 ^ 52 * 2 ^ (e + 1) ≤ 2 ^ 52 * 2 ^ (k + 1) := Nat.mul_le_mul_left _ h4
      omega
    · have h4 : 2 ^ (k + 1 + 1) ≤ 2 ^ e := Nat.pow_le_pow_right (by decide) hgt
      have h5 : 2 ^ 53 * 2 ^ (k + 1) = 2 ^ 52 * 2 ^ (k + 1 + 1) := by
        rw [pow_succ 2 (k + 1)]; ring
      have h6 : 2 ^ 52 * 2 ^ (k + 1 + 1) ≤ 2 ^ 52 * 2 ^ e := Nat.mul_le_mul_left _ h4
      omega

theorem roundNat_small (a : Nat) (h : a < 2 ^ 53) : roundNat a = a := by
  have := (halvings_spec a a (le_refl _)).1 h
  simp [roundNat, this]

theorem roundNat_eq (Q E R : Nat) (hQ1 : 2 ^ 52 ≤ Q) (hQ2 : Q < 2 ^ 53) (hE : 1 ≤ E)
    (hR : R < 2 ^ E) :
    roundNat (Q * 2 ^ E + R) =
      if R < 2 ^ (E - 1) ∨ (R = 2 ^ (E - 1) ∧ Q % 2 = 0) then Q * 2 ^ E else (Q + 1) * 2 ^ E := by
  have hpos : 0 < 2 ^ E := Nat.two_pow_pos _
  have he := halvings_unique Q E R hQ1 hQ2 hR
  have hdiv : (Q * 2 ^ E + R) / 2 ^ E = Q := by
    rw [Nat.add_comm, Nat.add_mul_div_right _ _ hpos, Nat.div_eq_of_lt hR, Nat.zero_add]
  have hmod : (Q * 2 ^ E + R) % 2 ^ E = R := by
    rw [Nat.add_comm, Nat.add_mul_mod_self_right, Nat.mod_eq_of_lt hR]
  have hE0 : E ≠ 0 := by omega
  simp only [roundNat, he, hdiv, hmod, hE0, if_false]

theorem double_decompose (a : Nat) (hfix : roundNat a = a) (hbig : 2 ^ 53 ≤ a) :
    ∃ Q E, 2 ^ 52 ≤ Q ∧ Q < 2 ^ 53 ∧ 1 ≤ E ∧ a = Q * 2 ^ E := by
  obtain ⟨he, hq1, hq2⟩ := (halvings_spec a a (le_refl _)).2 hbig
  generalize halvings a a = e at he hq1 hq2
  have hpos : 0 < 2 ^ e := Nat.two_pow_pos _
  have hR : a % 2 ^ e < 2 ^ e := Nat.mod_lt _ hpos
  have hsplit : a = a / 2 ^ e * 2 ^ e + a % 2 ^ e := by
    rw [Nat.mul_comm]; exact (Nat.div_add_mod a (2 ^ e)).symm
  have hround := roundNat_eq (a / 2 ^ e) e (a % 2 ^ e) hq1 hq2 he hR
  rw [← hsplit, hfix] at hround
  refine ⟨a / 2 ^ e, e, hq1, hq2, he, ?_⟩
  split at hround
  · exact hround
  · exfalso
    have : (a / 2 ^ e + 1) * 2 ^ e = a / 2 ^ e * 2 ^ e + 2 ^ e := by ring
    omega

theorem roundNat_exact (Q E : Nat) (hQ1 : 2 ^ 52 ≤ Q) (hQ2 : Q < 2 ^ 53) :
    roundNat (Q * 2 ^ E) = Q * 2 ^ E := by
  cases E with
  | zero => exact roundNat_small _ (by simpa using hQ2)
  | succ k =>
    have h := roundNat_eq Q (k + 1) 0 hQ1 hQ2 (by omega) (Nat.two_pow_pos _)
    have hpos : 0 < 2 ^ (k + 1 - 1) := Nat.two_pow_pos _
    simpa [hpos] using h


theorem roundNat_succ (a : Nat) (hfix : roundNat a = a) :
    roundNat (roundNat (a + 1)) = roundNat (a + 1) ∧ a ≤ roundNat (a + 1) ∧
      (roundNat (a + 1) = a ∨ roundNat (a + 1) ≤ 2 ^ 54) := by
  by_cases h1 : a + 1 < 2 ^ 53
  · have h := roundNat_small (a + 1) h1
    rw [h, h]
    exact ⟨rfl, by omega, Or.inr (by omega)⟩
  by_cases h2 : a < 2 ^ 53
  · have ha : a + 1 = 2 ^ 52 * 2 ^ 1 := by omega
    have h := roundNat_exact (2 ^ 52) 1 (le_refl _) (by norm_num)
    rw [ha, h, h]
    exact ⟨rfl, by omega, Or.inr (by norm_num)⟩
  obtain ⟨Q, E, hQ1, hQ2, hE, rfl⟩ := double_decompose a hfix (by omega)
  have hP : 2 ^ 1 ≤ 2 ^ E := Nat.pow_le_pow_right (by decide) hE
  have hround := roundNat_eq Q E 1 hQ1 hQ2 hE (by omega)
  split at hround
  · rw [hround, hfix]
    exact ⟨rfl, le_refl _, Or.inl rfl⟩
  · rename_i hcond
    have hE1 : E = 1 := by
      by_contra hne
      have : 2 ^ 1 ≤ 2 ^ (E - 1) := Nat.pow_le_pow_right (by decide) (by omega)
      exact hcond (Or.inl (by omega))
    subst hE1
    rw [hround]
    have hle : Q * 2 ^ 1 ≤ (Q + 1) * 2 ^ 1 := Nat.mul_le_mul_right _ (by omega)
    have hup : (Q + 1) * 2 ^ 1 ≤ 2 ^ 54 := by omega
    refine ⟨?_, hle, Or.inr hup⟩
    by_cases hq : Q + 1 < 2 ^ 53
    · exact roundNat_exact (Q + 1) 1 (by omega) hq
    · have hq' : (Q + 1) * 2 ^ 1 = 2 ^ 52 * 2 ^ 2 := by omega
      rw [hq']
      exact roundNat_exact (2 ^ 52) 2 (le_refl _) (by norm_num)

theorem roundNat_pred (a : Nat) (hfix : roundNat a = a) :
    roundNat (roundNat (a - 1)) = roundNat (a - 1) ∧ roundNat (a - 1) ≤ a := by
  by_cases h1 : a - 1 < 2 ^ 53
  · have h := roundNat_small (a - 1) h1
    rw [h, h]
    exact ⟨rfl, by omega⟩
  obtain ⟨Q, E, hQ1, hQ2, hE, rfl⟩ := double_decompose a hfix (by omega)
  have hpos : 0 < 2 ^ E := Nat.two_pow_pos _
  by_cases hQ : 2 ^ 52 < Q
  · obtain ⟨Q', rfl⟩ : ∃ Q', Q = Q' + 1 := ⟨Q - 1, by omega⟩
    have hsplit : (Q' + 1) * 2 ^ E = Q' * 2 ^ E + 2 ^ E := by ring
    have hpred : (Q' + 1) * 2 ^ E - 1 = Q' * 2 ^ E + (2 ^ E - 1) := by omega
    have hround := roundNat_eq Q' E (2 ^ E - 1) (by omega) (by omega) hE (by omega)
    rw [hpred, hround]
    split
    · exact ⟨roundNat_exact Q' E (by omega) (by omega), by omega⟩
    · exact ⟨hfix, le_refl _⟩
  · have hQ' : Q = 2 ^ 52 := by omega
    subst hQ'
    obtain ⟨k, rfl⟩ : ∃ k, E = k + 2 := by
      refine ⟨E - 2, ?_⟩
      by_contra hne
      have hE1 : E = 1 := by omega
      subst hE1
      omega
    have hpk : 0 < 2 ^ (k + 1) := Nat.two_pow_pos _
    have hsplit : 2 ^ 52 * 2 ^ (k + 2) = (2 ^ 53 - 1) * 2 ^ (k + 1) + 2 ^ (k + 1) := by
      have : (2 : Nat) ^ (k + 2) = 2 * 2 ^ (k + 1) := by rw [pow_succ]; ring
      rw [this]
      norm_num
      ring
    have hpred : 2 ^ 52 * 2 ^ (k + 2) - 1 = (2 ^ 53 - 1) * 2 ^ (k + 1) + (2 ^ (k + 1) - 1) := by
      omega
    have hround := roundNat_eq (2 ^ 53 - 1) (k + 1) (2 ^ (k + 1) - 1) (by norm_num) (by norm_num)
      (by omega) (by omega)
    rw [hpred, hround]
    split
    · exact ⟨roundNat_exact (2 ^ 53 - 1) (k + 1) (by norm_num) (by norm_num), by omega⟩
    · have hback : (2 ^ 53 - 1 + 1) * 2 ^ (k + 1) = 2 ^ 52 * 2 ^ (k + 2) := by
        have : (2 : Nat) ^ (k + 2) = 2 * 2 ^ (k + 1) := by rw [pow_succ]; ring
        rw [this]
        norm_num
        ring
      rw [hback]
      exact ⟨hfix, le_refl _⟩

theorem natAbs_toDouble (n : Int) : (toDouble n).natAbs = roundNat n.natAbs := by
  unfold toDouble
  rw [Int.natAbs_mul, Int.natAbs_sign, Int.natAbs_ofNat]
  by_cases hn : n = 0
  · subst hn
    simp [roundNat_small]
  · simp [hn]

theorem toDouble_succ (x : Int) (hx : isDouble x) :
    isDouble (toDouble (x + 1)) ∧ x ≤ toDouble (x + 1) := by
  obtain ⟨hfix, hbound⟩ := hx
  have hb54 : 2 ^ 54 < overflowBound := by decide
  by_cases hsign : 0 ≤ x
  · obtain ⟨a, rfl⟩ := Int.eq_ofNat_of_zero_le hsign
    simp only [Int.natAbs_ofNat] at hfix hbound
    obtain ⟨h1, h2, h3⟩ := roundNat_succ a hfix
    have hval : toDouble ((a : Int) + 1) = (roundNat (a + 1) : Int) := by
      have hpos : ((a : Int) + 1).sign = 1 := Int.sign_eq_one_of_pos (by omega)
      have habs : ((a : Int) + 1).natAbs = a + 1 := by omega
      rw [toDouble, hpos, habs, one_mul]
    rw [hval]
    refine ⟨⟨by simpa using h1, ?_⟩, by exact_mod_cast h2⟩
    simp only [Int.natAbs_ofNat]
    rcases h3 with h3 | h3
    · rw [h3]; exact hbound
    · omega
  · have hneg : x < 0 := by omega
    obtain ⟨h1, h2⟩ := roundNat_pred x.natAbs hfix
    have habs : (x + 1).natAbs = x.natAbs - 1 := by omega
    have hnat := natAbs_toDouble (x + 1)
    rw [habs] at hnat
    refine ⟨⟨by rw [hnat]; exact h1, by rw [hnat]; omega⟩, ?_⟩
    have hle : toDouble (x + 1) ≤ 0 := by
      unfold toDouble
      have : (x + 1).sign ≤ 0 := by
        by_cases h : x + 1 = 0
        · rw [h]; decide
        · rw [Int.sign_eq_neg_one_of_neg (by omega)]; decide
      exact Int.mul_nonpos_of_nonpos_of_nonneg this (Int.ofNat_nonneg _)
    omega

theorem toJsInt_succ (x : JsInt) :
    (toJsInt (x.val + 1)).val = toDouble (x.val + 1) ∧ x.val ≤ (toJsInt (x.val + 1)).val := by
  obtain ⟨hd, hle⟩ := toDouble_succ x.val x.property
  have hval : (toJsInt (x.val + 1)).val = toDouble (x.val + 1) := by
    unfold toJsInt
    rw [dif_pos hd]
  exact ⟨hval, by rw [hval]; exact hle⟩

/-! ## Auxiliary lemmas: the handlers -/

theorem foldl_max_ge (rest : List Int) (first : Int) :
    first ≤ rest.foldl max first ∧ ∀ x ∈ rest, x ≤ rest.foldl max first := by
  induction rest generalizing first with
  | nil => simp
  | cons y ys ih =>
    have h := ih (max first y)
    simp only [List.foldl_cons] at h ⊢
    refine ⟨le_trans (le_max_left _ _) h.1, ?_⟩
    intro x hx
    rcases List.mem_cons.1 hx with rfl | hx
    · exact le_trans (le_max_right _ _) h.1
    · exact h.2 x hx

theorem foldl_max_mem (rest : List Int) (first : Int) :
    rest.foldl max first ∈ first :: rest := by
  induction rest generalizing first with
  | nil => simp
  | cons y ys ih =>
    have h := ih (max first y)
    simp only [List.foldl_cons] at h ⊢
    rcases List.mem_cons.1 h with h | h
    · rw [h]
      rcases max_choice first y with hm | hm <;> simp [hm]
    · simp [h]

theorem nextId_isSome (maxArgs : Nat) (todos : List Todo) (h : todos.length ≤ maxArgs) :
    ∃ id, nextId maxArgs todos = some id := by
  unfold nextId
  cases hm : todos.map (·.id.val) with
  | nil => exact ⟨1, rfl⟩
  | cons first rest =>
    have hlen : rest.length + 1 ≤ maxArgs := by
      have := congrArg List.length hm
      simp only [List.length_map, List.length_cons] at this
      omega
    simp only [mathMax, hlen, if_true, Option.map_some']
    exact ⟨_, rfl⟩

theorem nextId_eq_none (maxArgs : Nat) (todos : List Todo) (h : maxArgs < todos.length) :
    nextId maxArgs todos = none := by
  unfold nextId
  cases hm : todos.map (·.id.val) with
  | nil =>
    have := congrArg List.length hm
    simp only [List.length_map, List.length_nil] at this
    omega
  | cons first rest =>
    have hlen : ¬ rest.length + 1 ≤ maxArgs := by
      have := congrArg List.length hm
      simp only [List.length_map, List.length_cons] at this
      omega
    simp only [mathMax, hlen, if_false, Option.map_none']

theorem nextId_length (maxArgs : Nat) (todos : List Todo) (id : JsInt)
    (h : nextId maxArgs todos = some id) : todos.length ≤ maxArgs := by
  by_contra hlt
  rw [nextId_eq_none maxArgs todos (by omega)] at h
  exact Option.noConfusion h

theorem nextId_ge (maxArgs : Nat) (todos : List Todo) (id : JsInt)
    (h : nextId maxArgs todos = some id) : ∀ t ∈ todos, t.id.val ≤ id.val := by
  intro t ht
  have hmem : t.id.val ∈ todos.map (·.id.val) := List.mem_map_of_mem _ ht
  unfold nextId at h
  cases hm : todos.map (·.id.val) with
  | nil => rw [hm] at hmem; simp at hmem
  | cons first rest =>
    rw [hm] at hmem h
    simp only [mathMax] at h
    split at h
    · simp only [Option.map_some', Option.some.injEq] at h
      have hle : t.id.val ≤ rest.foldl max first := by
        have hge := foldl_max_ge rest first
        rcases List.mem_cons.1 hmem with h1 | h1
        · rw [h1]; exact hge.1
        · exact hge.2 _ h1
      have hmaxmem : rest.foldl max first ∈ todos.map (·.id.val) := by
        rw [hm]; exact foldl_max_mem rest first
      obtain ⟨u, _, hu⟩ := List.mem_map.1 hmaxmem
      have hsucc := (toJsInt_succ u.id).2
      rw [hu, h] at hsucc
      omega
    · simp at h

theorem trim_ne_empty_not_falsy (s : String) (h : trim s ≠ "") : jsNot (.string s) = false := by
  simp only [jsNot, beq_eq_false_iff_ne, ne_eq]
  intro hs
  subst hs
  exact h (by decide)

theorem postTodo_valid (maxArgs : Nat) (s now : String) (file : List Todo) (id : JsInt)
    (h : trim s ≠ "") (hid : nextId maxArgs file = some id) :
    postTodo maxArgs (.string s) now .written file =
      (.responded 201 (.todo ⟨id, trim s, false, now⟩), file ++ [⟨id, trim s, false, now⟩]) := by
  simp [postTodo, trim_ne_empty_not_falsy s h, h, writeTodos, readTodos, hid]

theorem postTodo_created (maxArgs : Nat) (text : JsValue) (now : String) (w : WriteResult)
    (file : List Todo) (body : Body) (file' : List Todo)
    (h : postTodo maxArgs text now w file = (.responded 201 body, file')) :
    ∃ s id, text = .string s ∧ trim s ≠ "" ∧ w = .written ∧ nextId maxArgs file = some id ∧
      body = .todo ⟨id, trim s, false, now⟩ ∧ file' = file ++ [⟨id, trim s, false, now⟩] := by
  cases text with
  | string s =>
    by_cases hblank : trim s = ""
    · by_cases hn : jsNot (.string s) = true
      · simp [postTodo, hn] at h
      · simp [postTodo, hn, hblank] at h
    · have hnot := trim_ne_empty_not_falsy s hblank
      cases hid : nextId maxArgs file with
      | none => simp [postTodo, hnot, hblank, readTodos, hid] at h
      | some id =>
        cases w with
        | written =>
          simp only [postTodo, hnot, hblank, readTodos, hid, writeTodos, Bool.false_eq_true,
            if_false, beq_iff_eq, Prod.mk.injEq, Outcome.responded.injEq, true_and] at h
          exact ⟨s, id, rfl, hblank, rfl, rfl, h.1.symm, h.2.symm⟩
        | failedBeforeOpen => simp [postTodo, hnot, hblank, readTodos, hid, writeTodos] at h
        | failedAfterOpen => simp [postTodo, hnot, hblank, readTodos, hid, writeTodos] at h
  | undefined => simp [postTodo, jsNot] at h
  | null => simp [postTodo, jsNot] at h
  | bool b => cases b <;> simp [postTodo, jsNot] at h
  | number n =>
    by_cases hn : n = 0
    · simp [postTodo, jsNot, hn] at h
    · simp [postTodo, jsNot, hn] at h
  | array => simp [postTodo, jsNot] at h
  | object => simp [postTodo, jsNot] at h

theorem trimChars_spec (cs : List Char) :
    ∃ pre post : List Char, cs = pre ++ trimChars cs ++ post ∧
      (∀ c ∈ pre, isWhiteSpace c = true) ∧ (∀ c ∈ post, isWhiteSpace c = true) ∧
      (∀ c, (trimChars cs).head? = some c → isWhiteSpace c = false) ∧
      (∀ c, (trimChars cs).getLast? = some c → isWhiteSpace c = false) := by
  refine ⟨cs.takeWhile isWhiteSpace,
    (((cs.dropWhile isWhiteSpace).reverse).takeWhile isWhiteSpace).reverse, ?_, ?_, ?_, ?_, ?_⟩
  · have h1 := List.takeWhile_append_dropWhile isWhiteSpace cs
    have h2 := List.takeWhile_append_dropWhile isWhiteSpace (cs.dropWhile isWhiteSpace).reverse
    have h3 := congrArg List.reverse h2
    rw [List.reverse_append, List.reverse_reverse] at h3
    unfold trimChars
    rw [List.append_assoc, h3, h1]
  · intro c hc
    exact List.mem_takeWhile_imp hc
  · intro c hc
    exact List.mem_takeWhile_imp (List.mem_reverse.1 hc)
  · intro c hc
    -- the first character of the trimmed text is the first one left by the first strip
    have hd : (cs.dropWhile isWhiteSpace).head? = some c := by
      have h2 := List.takeWhile_append_dropWhile isWhiteSpace (cs.dropWhile isWhiteSpace).reverse
      have h3 := congrArg List.reverse h2
      rw [List.reverse_append, List.reverse_reverse] at h3
      have h4 : trimChars cs ++
          (((cs.dropWhile isWhiteSpace).reverse).takeWhile isWhiteSpace).reverse =
          cs.dropWhile isWhiteSpace := h3
      rw [← h4]
      cases ht : trimChars cs with
      | nil => rw [ht] at hc; simp at hc
      | cons a as => rw [ht] at hc; simpa using hc
    have := List.head?_dropWhile_not isWhiteSpace cs
    rw [hd] at this
    simpa using this
  · intro c hc
    have hlast : (trimChars cs).getLast? =
        (((cs.dropWhile isWhiteSpace).reverse).dropWhile isWhiteSpace).head? := by
      unfold trimChars
      rw [List.getLast?_reverse]
    rw [hlast] at hc
    have := List.head?_dropWhile_not isWhiteSpace (cs.dropWhile isWhiteSpace).reverse
    rw [hc] at this
    simpa using this

theorem trim_eq_empty_iff (s : String) :
    trim s = "" ↔ ∀ c ∈ s.data, isWhiteSpace c = true := by
  have hmk : trim s = "" ↔ trimChars s.data = [] := by
    unfold trim
    constructor
    · intro h
      exact congrArg String.data h
    · intro h
      rw [h]
  rw [hmk]
  constructor
  · intro h c hc
    obtain ⟨pre, post, hcs, hpre, hpost, _, _⟩ := trimChars_spec s.data
    rw [h, List.append_nil] at hcs
    rw [hcs] at hc
    rcases List.mem_append.1 hc with hc | hc
    · exact hpre c hc
    · exact hpost c hc
  · intro h
    have hd : s.data.dropWhile isWhiteSpace = [] := List.dropWhile_eq_nil_iff.2 h
    simp [trimChars, hd]

theorem findIndex_eq_none_iff (p : Todo → Bool) (l : List Todo) :
    findIndex p l = none ↔ ∀ t ∈ l, p t = false := by
  induction l with
  | nil => simp [findIndex]
  | cons a as ih =>
    by_cases ha : p a = true
    · simp [findIndex, ha]
    · simp [findIndex, ha, ih]

theorem findIndex_eq_some (p : Todo → Bool) (l : List Todo) (i : Nat)
    (h : findIndex p l = some i) :
    ∃ t, l[i]? = some t ∧ p t = true ∧ ∀ j u, j < i → l[j]? = some u → p u = false := by
  induction l generalizing i with
  | nil => simp [findIndex] at h
  | cons a as ih =>
    by_cases ha : p a = true
    · simp only [findIndex, ha, if_true, Option.some.injEq] at h
      subst h
      exact ⟨a, by simp, ha, fun j u hj => absurd hj (Nat.not_lt_zero j)⟩
    · simp only [findIndex, ha, Bool.false_eq_true, if_false, Option.map_eq_some'] at h
      obtain ⟨k, hk, rfl⟩ := h
      obtain ⟨t, ht, hpt, hbefore⟩ := ih k hk
      refine ⟨t, by simpa using ht, hpt, ?_⟩
      intro j u hj hu
      cases j with
      | zero =>
        simp only [List.getElem?_cons_zero, Option.some.injEq] at hu
        subst hu
        simpa using ha
      | succ j =>
        simp only [List.getElem?_cons_succ] at hu
        exact hbefore j u (by omega) hu

theorem findIndex_set (p : Todo → Bool) (l : List Todo) (i : Nat) (t' : Todo)
    (h : findIndex p l = some i) (hp : p t' = true) :
    findIndex p (l.set i t') = some i := by
  induction l generalizing i with
  | nil => simp [findIndex] at h
  | cons a as ih =>
    by_cases ha : p a = true
    · simp only [findIndex, ha, if_true, Option.some.injEq] at h
      subst h
      simp [findIndex, hp]
    · simp only [findIndex, ha, Bool.false_eq_true, if_false, Option.map_eq_some'] at h
      obtain ⟨k, hk, rfl⟩ := h
      simp [findIndex, ha, ih k hk]

theorem findIndex_of_mem (n : Int) (file : List Todo) (hmem : n ∈ ids file) :
    ∃ i, findIndex (fun t => strictEq t.id (.finite n)) file = some i := by
  cases h : findIndex (fun t => strictEq t.id (.finite n)) file with
  | some i => exact ⟨i, rfl⟩
  | none =>
    exfalso
    have hall := (findIndex_eq_none_iff _ _).1 h
    simp only [ids, List.mem_map] at hmem
    obtain ⟨t, ht, rfl⟩ := hmem
    have := hall t ht
    simp [strictEq] at this

theorem isDouble_of_mem (n : Int) (file : List Todo) (hmem : n ∈ ids file) : isDouble n := by
  simp only [ids, List.mem_map] at hmem
  obtain ⟨t, _, rfl⟩ := hmem
  exact t.id.property

theorem putTodo_found (param : String) (n : Int) (file : List Todo) (i : Nat) (t : Todo)
    (hparse : parseInt param = .finite n)
    (hfind : findIndex (fun t => strictEq t.id (.finite n)) file = some i)
    (hget : file[i]? = some t) :
    putTodo param .written file =
      (.responded 200 (.todo { t with completed := !t.completed }),
        file.set i { t with completed := !t.completed }) := by
  simp [putTodo, hparse, readTodos, hfind, hget, writeTodos]

theorem putTodo_not_found (param : String) (w : WriteResult) (file : List Todo)
    (hnone : ∀ t ∈ file, strictEq t.id (parseInt param) = false) :
    putTodo param w file = (.responded 404 (.error "Todo not found"), file) := by
  have h := (findIndex_eq_none_iff (fun t => strictEq t.id (parseInt param)) file).2 hnone
  simp [putTodo, readTodos, h]

theorem deleteTodo_not_found (param : String) (w : WriteResult) (file : List Todo)
    (hnone : ∀ t ∈ file, strictEq t.id (parseInt param) = false) :
    deleteTodo param w file = (.responded 404 (.error "Todo not found"), file) := by
  have h : file.filter (fun t => !strictEq t.id (parseInt param)) = file :=
    List.filter_eq_self.2 (fun t ht => by simp [hnone t ht])
  simp [deleteTodo, readTodos, h]

theorem strictEq_of_not_mem (n : Int) (file : List Todo) (hnot : n ∉ ids file) :
    ∀ t ∈ file, strictEq t.id (.finite n) = false := by
  intro t ht
  simp only [strictEq, beq_eq_false_iff_ne, ne_eq]
  intro h
  exact hnot (by simpa [ids] using ⟨t, ht, h⟩)

theorem deleteTodo_found (param : String) (n : Int) (file : List Todo)
    (hparse : parseInt param = .finite n) (hmem : n ∈ ids file) :
    deleteTodo param .written file =
      (.responded 200 (.message "Todo deleted successfully"),
        file.filter (fun t => t.id.val != n)) := by
  have hfilter : file.filter (fun t => !strictEq t.id (.finite n)) =
      file.filter (fun t => t.id.val != n) := rfl
  have hlen : (file.length == (file.filter (fun t => t.id.val != n)).length) = false := by
    rw [beq_eq_false_iff_ne]
    intro h
    have hall := List.filter_length_eq_length.1 h.symm
    simp only [ids, List.mem_map] at hmem
    obtain ⟨t, ht, hid⟩ := hmem
    have := hall t ht
    rw [hid] at this
    simp at this
  simp only [deleteTodo, hparse, readTodos, hfilter, hlen, writeTodos]
  rfl

theorem filter_ne_eq_self (n : Int) (l : List Todo) (h : n ∉ ids l) :
    l.filter (fun t => t.id.val != n) = l := by
  apply List.filter_eq_self.2
  intro t ht
  rw [bne_iff_ne]
  intro hid
  exact h (by rw [← hid]; exact List.mem_map_of_mem _ ht)

theorem filter_of_nodup (n : Int) (file : List Todo) (hnodup : (ids file).Nodup)
    (hmem : n ∈ ids file) :
    ∃ pre r post, file = pre ++ r :: post ∧ r.id.val = n ∧
      file.filter (fun t => t.id.val != n) = pre ++ post := by
  simp only [ids, List.mem_map] at hmem
  obtain ⟨r, hr, hid⟩ := hmem
  obtain ⟨pre, post, hsplit⟩ := List.append_of_mem hr
  subst hsplit
  refine ⟨pre, r, post, rfl, hid, ?_⟩
  have hnd : (ids pre ++ r.id.val :: ids post).Nodup := by
    simpa [ids] using hnodup
  have hparts := List.nodup_middle.1 hnd
  have hnot : r.id.val ∉ ids pre ++ ids post := (List.nodup_cons.1 hparts).1
  rw [hid] at hnot
  have hpre := filter_ne_eq_self n pre (fun h => hnot (List.mem_append_left _ h))
  have hpost := filter_ne_eq_self n post (fun h => hnot (List.mem_append_right _ h))
  have hr' : (r.id.val != n) = false := by rw [hid]; simp
  rw [List.filter_append, List.filter_cons, hpre, hpost, hr']
  rfl

theorem parseInt_eq_nan_of_no_digit (seg : String)
    (h : ∀ c, (digitsStart seg).head? = some c → digitValue 10 c = none) :
    parseInt seg = .nan := by
  unfold digitsStart at h
  unfold parseInt
  generalize (parseSign (seg.data.dropWhile isWhiteSpace)) = r at h
  obtain ⟨sign, rest⟩ := r
  simp only at h ⊢
  cases rest with
  | nil => simp [parseRadix]
  | cons c cs =>
    have hc : digitValue 10 c = none := h c rfl
    have hradix : parseRadix (c :: cs) = (10, c :: cs) := by
      unfold parseRadix
      split
      · rename_i heq
        cases heq
        exact absurd hc (by decide)
      · rename_i heq
        cases heq
        exact absurd hc (by decide)
      · rfl
    simp [hradix, List.takeWhile_cons, hc]

theorem digit_not_white (c : Char) (h : 48 ≤ c.toNat ∧ c.toNat ≤ 57) : isWhiteSpace c = false := by
  simp only [isWhiteSpace, Bool.or_eq_false_iff, beq_eq_false_iff_ne, Bool.and_eq_false_iff,
    decide_eq_false_iff_not, ne_eq]
  omega

theorem digit_value (c : Char) (h : 48 ≤ c.toNat ∧ c.toNat ≤ 57) :
    digitValue 10 c = some (c.toNat - 48) := by
  simp [digitValue, h.1, h.2]

theorem parseInt_digits (ds : List Char) (hne : ds ≠ [])
    (hall : ∀ c ∈ ds, 48 ≤ c.toNat ∧ c.toNat ≤ 57)
    (hfix : roundNat (digitsValue 10 ds) = digitsValue 10 ds)
    (hbound : digitsValue 10 ds < overflowBound) :
    parseInt (String.mk ds) = .finite (digitsValue 10 ds : Int) ∧
    parseInt (String.mk ('-' :: ds)) = .finite (-(digitsValue 10 ds : Int)) := by
  obtain ⟨c, cs, rfl⟩ := List.exists_cons_of_ne_nil hne
  have hc := hall c (List.mem_cons_self _ _)
  have hdrop : (c :: cs).dropWhile isWhiteSpace = c :: cs := by
    simp [List.dropWhile_cons, digit_not_white c hc]
  have hsign : parseSign (c :: cs) = (1, c :: cs) := by
    unfold parseSign
    split
    · rename_i heq
      cases heq
      exact absurd hc (by decide)
    · rename_i heq
      cases heq
      exact absurd hc (by decide)
    · rfl
  have hradix : parseRadix (c :: cs) = (10, c :: cs) := by
    unfold parseRadix
    split
    · rename_i heq
      cases heq
      exact absurd (hall 'x' (by simp)) (by decide)
    · rename_i heq
      cases heq
      exact absurd (hall 'X' (by simp)) (by decide)
    · rfl
  have htake : (c :: cs).takeWhile (fun c => (digitValue 10 c).isSome) = c :: cs := by
    apply List.takeWhile_eq_self_iff.2
    intro x hx
    simp [digit_value x (hall x hx)]
  constructor
  · simp [parseInt, hdrop, hsign, hradix, htake, hfix, hbound]
  · have hdrop' : ('-' :: c :: cs).dropWhile isWhiteSpace = '-' :: c :: cs := by
      rw [List.dropWhile_cons]
      have : isWhiteSpace '-' = false := by decide
      simp [this]
    have hsign' : parseSign ('-' :: c :: cs) = (-1, c :: cs) := rfl
    simp [parseInt, hdrop', hsign', hradix, htake, hfix, hbound]

theorem digit_char (d : Nat) (hd : d < 10) : ∃ c : Char, c.toNat = d + 48 := by
  interval_cases d
  exacts [⟨'0', rfl⟩, ⟨'1', rfl⟩, ⟨'2', rfl⟩, ⟨'3', rfl⟩, ⟨'4', rfl⟩, ⟨'5', rfl⟩, ⟨'6', rfl⟩,
    ⟨'7', rfl⟩, ⟨'8', rfl⟩, ⟨'9', rfl⟩]

theorem digits_of_nat (m : Nat) :
    ∃ ds : List Char, ds ≠ [] ∧ (∀ c ∈ ds, 48 ≤ c.toNat ∧ c.toNat ≤ 57) ∧
      digitsValue 10 ds = m := by
  induction m using Nat.strong_induction_on with
  | _ m ih =>
    obtain ⟨c, hc⟩ := digit_char (m % 10) (Nat.mod_lt _ (by decide))
    have hcr : 48 ≤ c.toNat ∧ c.toNat ≤ 57 := by
      have := Nat.mod_lt m (show 10 > 0 by decide)
      omega
    by_cases hm : m < 10
    · refine ⟨[c], by simp, ?_, ?_⟩
      · intro x hx
        rw [List.mem_singleton] at hx
        subst hx
        exact hcr
      · simp only [digitsValue, List.foldl_cons, List.foldl_nil, digit_value c hcr,
          Option.getD_some]
        have := Nat.mod_eq_of_lt hm
        omega
    · obtain ⟨ds, hne, hall, hval⟩ := ih (m / 10) (by omega)
      refine ⟨ds ++ [c], by simp, ?_, ?_⟩
      · intro x hx
        rcases List.mem_append.1 hx with hx | hx
        · exact hall x hx
        · rw [List.mem_singleton] at hx
          subst hx
          exact hcr
      · unfold digitsValue at hval ⊢
        rw [List.foldl_append, hval]
        simp only [List.foldl_cons, List.foldl_nil, digit_value c hcr, Option.getD_some]
        have := Nat.div_add_mod m 10
        omega

theorem parseInt_onto (n : Int) (hn : isDouble n) :
    ∃ param : String, parseInt param = .finite n := by
  obtain ⟨ds, hne, hall, hval⟩ := digits_of_nat n.natAbs
  have h := parseInt_digits ds hne hall (by rw [hval]; exact hn.1) (by rw [hval]; exact hn.2)
  rw [hval] at h
  by_cases hsign : 0 ≤ n
  · refine ⟨String.mk ds, ?_⟩
    rw [h.1, Int.natAbs_of_nonneg hsign]
  · refine ⟨String.mk ('-' :: ds), ?_⟩
    rw [h.2]
    congr 1
    omega

theorem postTodo_rangeError (maxArgs : Nat) (s now : String) (w : WriteResult) (file : List Todo)
    (h : trim s ≠ "") (hlen : maxArgs < file.length) :
    postTodo maxArgs (.string s) now w file = (.threw .rangeError, file) := by
  simp [postTodo, trim_ne_empty_not_falsy s h, h, readTodos, nextId_eq_none maxArgs file hlen]

theorem postTodo_at_two_pow_53 :
    postTodo 100000 (.string "c") "t1" .written [⟨9007199254740992, "a", false, "t0"⟩] =
      (.responded 201 (.todo ⟨9007199254740992, "c", false, "t1"⟩),
        [⟨9007199254740992, "a", false, "t0"⟩, ⟨9007199254740992, "c", false, "t1"⟩]) := by
  have hsucc : toJsInt ((9007199254740992 : JsInt).val + 1) = 9007199254740992 := by decide
  have hid : nextId 100000 [⟨9007199254740992, "a", false, "t0"⟩] = some 9007199254740992 := by
    simp [nextId, mathMax, hsucc]
  have h := postTodo_valid 100000 "c" "t1" [⟨9007199254740992, "a", false, "t0"⟩]
    9007199254740992 (by decide) hid
  rw [h]
  have htrim : trim "c" = "c" := by decide
  rw [htrim]
  rfl

/-! ## Creation -/

/-- C1 fails on the code: with the single stored id 9007199254740992 (`2 ^ 53`), a
create with valid text whose write succeeds responds 201 and gives the new record the
id 9007199254740992 again, which is the maximum id present and not the maximum plus
one: the sum `Math.max(...) + 1` is a sum of doubles. -/
theorem create_at_two_pow_53_repeats_id :
    ∃ t : Todo,
      postTodo 100000 (.string "c") "t1" .written [⟨9007199254740992, "a", false, "t0"⟩] =
        (.responded 201 (.todo t), [⟨9007199254740992, "a", false, "t0"⟩] ++ [t]) ∧
      ids [⟨9007199254740992, "a", false, "t0"⟩] = [9007199254740992] ∧
      t.id.val = 9007199254740992 ∧ t.id.val ≠ 9007199254740992 + 1 :=
  ⟨⟨9007199254740992, "c", false, "t1"⟩, postTodo_at_two_pow_53, by decide, by decide, by decide⟩

/-- C2: for every stored collection, a create with valid text succeeds, that is,
responds 201, when the write succeeds and the collection is not too long for the
call of `Math.max` (otherwise that call throws before anything is written). Every
create that responds 201 had valid text and a successful write; it responds with
the new record and leaves the old collection with that one record appended at the
end. The record's text is the input without its leading and trailing white space
and is not empty, its completed flag is false, and the records that were there
before keep their content and their position. -/
theorem create_appends_trimmed_record (maxArgs : Nat) (now : String) (file : List Todo) :
    (∀ s, trim s ≠ "" →
      (file.length ≤ maxArgs → ∃ t : Todo,
        postTodo maxArgs (.string s) now .written file =
          (.responded 201 (.todo t), file ++ [t])) ∧
      (maxArgs < file.length →
        postTodo maxArgs (.string s) now .written file = (.threw .rangeError, file))) ∧
    (∀ (text : JsValue) (w : WriteResult) (body : Body) (file' : List Todo),
      postTodo maxArgs text now w file = (.responded 201 body, file') →
      ∃ (s : String) (t : Todo), text = .string s ∧ w = .written ∧
        body = .todo t ∧ file' = file ++ [t] ∧
        t.text = trim s ∧ t.text ≠ "" ∧ t.completed = false ∧ t.createdAt = now ∧
        (∃ pre post : List Char, s.data = pre ++ t.text.data ++ post ∧
          (∀ c ∈ pre, isWhiteSpace c = true) ∧ (∀ c ∈ post, isWhiteSpace c = true) ∧
          (∀ c, t.text.data.head? = some c → isWhiteSpace c = false) ∧
          (∀ c, t.text.data.getLast? = some c → isWhiteSpace c = false)) ∧
        file'.length = file.length + 1 ∧
        (∀ i, i < file.length → file'[i]? = file[i]?) ∧
        file'[file.length]? = some t) := by
  constructor
  · intro s hvalid
    constructor
    · intro hlen
      obtain ⟨id, hid⟩ := nextId_isSome maxArgs file hlen
      exact ⟨_, postTodo_valid maxArgs s now file id hvalid hid⟩
    · intro hlen
      exact postTodo_rangeError maxArgs s now .written file hvalid hlen
  · intro text w body file' h
    obtain ⟨s, id, htext, hvalid, hw, _, hbody, hfile⟩ :=
      postTodo_created maxArgs text now w file body file' h
    refine ⟨s, ⟨id, trim s, false, now⟩, htext, hw, hbody, hfile, rfl, hvalid, rfl, rfl,
      trimChars_spec s.data, ?_, ?_, ?_⟩
    · rw [hfile]; simp
    · intro i hi
      rw [hfile]
      exact List.getElem?_append_left hi
    · rw [hfile]; simp

/-- Witness for C2: the text `"  Buy milk  "` is stored as `"Buy milk"`. -/
theorem create_appends_trimmed_record_witness :
    ∃ t : Todo, postTodo 100000 (.string "  Buy milk  ") "2024-01-01T00:00:00.000Z" .written
        [⟨1, "a", true, "t0"⟩] =
        (.responded 201 (.todo t), [⟨1, "a", true, "t0"⟩] ++ [t]) ∧
      t.text = "Buy milk" ∧ t.completed = false := by
  have hthm := create_appends_trimmed_record 100000 "2024-01-01T00:00:00.000Z"
    [⟨1, "a", true, "t0"⟩]
  obtain ⟨t, ht⟩ := (hthm.1 "  Buy milk  " (by decide)).1 (by decide)
  obtain ⟨s, t', hs, _, hbody, _, htext, _, hcompleted, _⟩ := hthm.2 _ _ _ _ ht
  cases hs
  cases hbody
  exact ⟨t, ht, htext.trans (by decide), hcompleted⟩

/-- C3, as stated, fails on bodies whose text is not a string. For `{"text": 0}` the
field exists and is no blank string, yet the answer is 400, because the handler
tests `!text`. For `{"text": 123}` the handler calls `trim` on a number: it sends
neither 400 nor 201, and no write fails, since none is attempted. Hence not every
outcome of create is 400, 201, or a 500 caused by a failed write. -/
theorem create_outcomes_counterexample :
    postTodo 100000 (.number 0) "2024-01-01T00:00:00.000Z" .written [] =
      (.responded 400 (.error "Todo text is required"), []) ∧
    postTodo 100000 (.number 123) "2024-01-01T00:00:00.000Z" .written [] =
      (.threw .typeError, []) ∧
    ¬ (∀ (text : JsValue) (now : String) (w : WriteResult) (file : List Todo),
        (postTodo 100000 text now w file).1 =
          .responded 400 (.error "Todo text is required") ∨
        (∃ t, (postTodo 100000 text now w file).1 = .responded 201 (.todo t)) ∨
        (w ≠ .written ∧ ∃ b, (postTodo 100000 text now w file).1 = .responded 500 b)) := by
  refine ⟨by decide, by decide, ?_⟩
  intro h
  have h1 := h (.number 123) "2024-01-01T00:00:00.000Z" .written []
  have h2 : (postTodo 100000 (.number 123) "2024-01-01T00:00:00.000Z" .written []).1 =
      .threw .typeError := by decide
  rw [h2] at h1
  rcases h1 with h1 | ⟨t, h1⟩ | ⟨h1, _⟩
  · exact Outcome.noConfusion h1
  · exact Outcome.noConfusion h1
  · exact h1 rfl

/-- C3, amended: when the text field is absent, falsy (`null`, `false`, `0`, the empty
string) or a string, create responds 400 with `Todo text is required` exactly when
the field is absent or falsy or is a string that is empty or consists of white
space only; then the stored collection is unchanged. When moreover the collection
is not too long for the call of `Math.max`, every other outcome is 201 with the
record appended, the write having succeeded, or 500 `Failed to save todo`, the
write having failed. -/
theorem create_rejects_missing_or_blank_text (maxArgs : Nat) (text : JsValue) (now : String)
    (w : WriteResult) (file : List Todo)
    (htext : text = .undefined ∨ text = .null ∨ text = .bool false ∨ text = .number 0 ∨
      ∃ s, text = .string s) :
    ((postTodo maxArgs text now w file).1 = .responded 400 (.error "Todo text is required") ↔
      (text = .undefined ∨ text = .null ∨ text = .bool false ∨ text = .number 0 ∨
        ∃ s, text = .string s ∧ ∀ c ∈ s.data, isWhiteSpace c = true)) ∧
    ((postTodo maxArgs text now w file).1 = .responded 400 (.error "Todo text is required") →
      (postTodo maxArgs text now w file).2 = file) ∧
    (file.length ≤ maxArgs →
      (postTodo maxArgs text now w file).1 ≠ .responded 400 (.error "Todo text is required") →
      (w = .written ∧
        ∃ t, postTodo maxArgs text now w file = (.responded 201 (.todo t), file ++ [t])) ∨
      (w ≠ .written ∧
        (postTodo maxArgs text now w file).1 =
          .responded 500 (.error "Failed to save todo"))) := by
  rcases htext with rfl | rfl | rfl | rfl | ⟨s, rfl⟩
  · simp [postTodo, jsNot]
  · simp [postTodo, jsNot]
  · simp [postTodo, jsNot]
  · simp [postTodo, jsNot]
  · by_cases hblank : trim s = ""
    · have hall := (trim_eq_empty_iff s).1 hblank
      have h400 : postTodo maxArgs (.string s) now w file =
          (.responded 400 (.error "Todo text is required"), file) := by
        by_cases hn : jsNot (.string s) = true
        · simp [postTodo, hn]
        · simp [postTodo, hn, hblank]
      rw [h400]
      refine ⟨⟨fun _ => ?_, fun _ => rfl⟩, fun _ => rfl, fun _ h => absurd rfl h⟩
      exact Or.inr (Or.inr (Or.inr (Or.inr ⟨s, rfl, hall⟩)))
    · have hnot := trim_ne_empty_not_falsy s hblank
      have hnall : ¬ ∀ c ∈ s.data, isWhiteSpace c = true :=
        fun h => hblank ((trim_eq_empty_iff s).2 h)
      have hne : (postTodo maxArgs (.string s) now w file).1 ≠
          .responded 400 (.error "Todo text is required") := by
        cases hid : nextId maxArgs file with
        | none => simp [postTodo, hnot, hblank, readTodos, hid]
        | some id => cases w <;> simp [postTodo, hnot, hblank, readTodos, hid, writeTodos]
      refine ⟨⟨fun h => absurd h hne, fun h => ?_⟩, fun h => absurd h hne, fun hlen _ => ?_⟩
      · rcases h with h | h | h | h | ⟨s', h, hall⟩
        · exact JsValue.noConfusion h
        · exact JsValue.noConfusion h
        · exact JsValue.noConfusion h
        · exact JsValue.noConfusion h
        · cases h
          exact absurd hall hnall
      · obtain ⟨id, hid⟩ := nextId_isSome maxArgs file hlen
        cases w with
        | written => exact Or.inl ⟨rfl, _, postTodo_valid maxArgs s now file id hblank hid⟩
        | failedBeforeOpen =>
          exact Or.inr ⟨by decide, by simp [postTodo, hnot, hblank, readTodos, hid, writeTodos]⟩
        | failedAfterOpen =>
          exact Or.inr ⟨by decide, by simp [postTodo, hnot, hblank, readTodos, hid, writeTodos]⟩

/-- Witness for C3: a text of blanks and a tab is answered 400 and nothing is
stored. -/
theorem create_rejects_missing_or_blank_text_witness :
    (postTodo 100000 (.string " \t ") "t1" .written [⟨1, "a", false, "t0"⟩]).1 =
      .responded 400 (.error "Todo text is required") ∧
    (postTodo 100000 (.string " \t ") "t1" .written [⟨1, "a", false, "t0"⟩]).2 =
      [⟨1, "a", false, "t0"⟩] := by
  have h := create_rejects_missing_or_blank_text 100000 (.string " \t ") "t1" .written
    [⟨1, "a", false, "t0"⟩] (Or.inr (Or.inr (Or.inr (Or.inr ⟨_, rfl⟩))))
  have h400 := h.1.2 (Or.inr (Or.inr (Or.inr (Or.inr ⟨" \t ", rfl, by decide⟩))))
  exact ⟨h400, h.2.1 h400⟩

/-! ## Toggling -/

/-- C4: in a collection with distinct ids that holds a record with the requested id,
a toggle whose write succeeds responds 200 with the updated record. The stored
collection keeps its length and order, that record has its completed flag negated and
its id, text and createdAt as before, and every other record is as before. Every
stored id can be requested, by any path segment that `parseInt` reads as it. -/
theorem toggle_flips_only_completed (n : Int) (file : List Todo)
    (hnodup : (ids file).Nodup) (hmem : n ∈ ids file) :
    (∃ param, parseInt param = .finite n) ∧
    ∀ param, parseInt param = .finite n →
      ∃ (i : Nat) (t t' : Todo) (file' : List Todo),
        file[i]? = some t ∧ t.id.val = n ∧
        (∀ j u, file[j]? = some u → u.id.val = n → j = i) ∧
        putTodo param .written file = (.responded 200 (.todo t'), file') ∧
        t'.completed = (!t.completed) ∧ t'.id = t.id ∧ t'.text = t.text ∧
        t'.createdAt = t.createdAt ∧
        file'.length = file.length ∧ file'[i]? = some t' ∧
        ∀ j, j ≠ i → file'[j]? = file[j]? := by
  refine ⟨parseInt_onto n (isDouble_of_mem n file hmem), ?_⟩
  intro param hparse
  obtain ⟨i, hfind⟩ := findIndex_of_mem n file hmem
  obtain ⟨t, hget, hpt, _⟩ := findIndex_eq_some _ _ _ hfind
  have hid : t.id.val = n := by simpa [strictEq] using hpt
  have hi : i < file.length := (List.getElem?_eq_some.1 hget).1
  refine ⟨i, t, { t with completed := !t.completed }, _, hget, hid, ?_,
    putTodo_found param n file i t hparse hfind hget, rfl, rfl, rfl, rfl, ?_, ?_, ?_⟩
  · intro j u hj hu
    have hij : (ids file)[i]? = (ids file)[j]? := by
      simp [ids, List.getElem?_map, hget, hj, hid, hu]
    exact (List.getElem?_inj (by simpa [ids] using hi) hnodup hij).symm
  · simp
  · simp [List.getElem?_set, hi]
  · intro j hj
    exact List.getElem?_set_ne (Ne.symm hj)

/-- Witness for C4: toggling id 2 in a collection of three records with distinct
ids. -/
theorem toggle_flips_only_completed_witness :
    parseInt "2" = .finite 2 ∧
    (ids [⟨1, "a", false, "t0"⟩, ⟨2, "b", false, "t1"⟩, ⟨5, "c", true, "t2"⟩]).Nodup ∧
    ∃ (i : Nat) (t t' : Todo) (file' : List Todo),
      [(⟨1, "a", false, "t0"⟩ : Todo), ⟨2, "b", false, "t1"⟩, ⟨5, "c", true, "t2"⟩][i]? =
        some t ∧ t.id.val = 2 ∧
      (∀ j u, [(⟨1, "a", false, "t0"⟩ : Todo), ⟨2, "b", false, "t1"⟩,
        ⟨5, "c", true, "t2"⟩][j]? = some u → u.id.val = 2 → j = i) ∧
      putTodo "2" .written
          [⟨1, "a", false, "t0"⟩, ⟨2, "b", false, "t1"⟩, ⟨5, "c", true, "t2"⟩] =
        (.responded 200 (.todo t'), file') ∧
      t'.completed = (!t.completed) ∧ t'.id = t.id ∧ t'.text = t.text ∧
      t'.createdAt = t.createdAt ∧
      file'.length = [(⟨1, "a", false, "t0"⟩ : Todo), ⟨2, "b", false, "t1"⟩,
        ⟨5, "c", true, "t2"⟩].length ∧ file'[i]? = some t' ∧
      ∀ j, j ≠ i → file'[j]? = [(⟨1, "a", false, "t0"⟩ : Todo), ⟨2, "b", false, "t1"⟩,
        ⟨5, "c", true, "t2"⟩][j]? :=
  ⟨by decide, by decide, (toggle_flips_only_completed 2
    [⟨1, "a", false, "t0"⟩, ⟨2, "b", false, "t1"⟩, ⟨5, "c", true, "t2"⟩]
    (by decide) (by decide)).2 "2" (by decide)⟩

/-- C9: for an id present in the collection, two toggles in a row whose writes succeed
both respond 200; the first negates the record's completed flag, the second responds
with the record as it was at the start and leaves the stored collection equal to the
one before the first toggle. Every stored id can be requested, by any path segment
that `parseInt` reads as it. -/
theorem toggle_twice_restores (n : Int) (file : List Todo) (hmem : n ∈ ids file) :
    (∃ param, parseInt param = .finite n) ∧
    ∀ param, parseInt param = .finite n →
      ∃ (t t1 : Todo) (file1 : List Todo),
        t ∈ file ∧ t.id.val = n ∧
        putTodo param .written file = (.responded 200 (.todo t1), file1) ∧
        t1.completed = (!t.completed) ∧
        putTodo param .written file1 = (.responded 200 (.todo t), file) := by
  refine ⟨parseInt_onto n (isDouble_of_mem n file hmem), ?_⟩
  intro param hparse
  obtain ⟨i, hfind⟩ := findIndex_of_mem n file hmem
  obtain ⟨t, hget, hpt, _⟩ := findIndex_eq_some _ _ _ hfind
  have hid : t.id.val = n := by simpa [strictEq] using hpt
  have hi : i < file.length := (List.getElem?_eq_some.1 hget).1
  have hfind1 : findIndex (fun t => strictEq t.id (.finite n))
      (file.set i { t with completed := !t.completed }) = some i :=
    findIndex_set _ file i _ hfind (by simpa using hpt)
  have hget1 : (file.set i { t with completed := !t.completed })[i]? =
      some { t with completed := !t.completed } := by
    simp [List.getElem?_set, hi]
  refine ⟨t, { t with completed := !t.completed }, _, List.mem_iff_getElem?.2 ⟨i, hget⟩, hid,
    putTodo_found param n file i t hparse hfind hget, rfl, ?_⟩
  rw [putTodo_found param n _ i _ hparse hfind1 hget1]
  have hback : ({ ({ t with completed := !t.completed } : Todo) with
      completed := !(!t.completed) } : Todo) = t := by
    cases t
    simp
  have hset : file.set i t = file := by
    apply List.ext_getElem?
    intro j
    by_cases hj : i = j
    · subst hj
      simp [List.getElem?_set, hi, hget]
    · rw [List.getElem?_set_ne hj]
  simp only [List.set_set]
  rw [hback, hset]

/-- Witness for C9: toggling id 1 twice in a collection of two records. -/
theorem toggle_twice_restores_witness :
    parseInt "1" = .finite 1 ∧
    ∃ (t t1 : Todo) (file1 : List Todo),
      t ∈ [(⟨1, "a", false, "t0"⟩ : Todo), ⟨2, "b", true, "t1"⟩] ∧ t.id.val = 1 ∧
      putTodo "1" .written [⟨1, "a", false, "t0"⟩, ⟨2, "b", true, "t1"⟩] =
        (.responded 200 (.todo t1), file1) ∧
      t1.completed = (!t.completed) ∧
      putTodo "1" .written file1 =
        (.responded 200 (.todo t), [⟨1, "a", false, "t0"⟩, ⟨2, "b", true, "t1"⟩]) :=
  ⟨by decide, (toggle_twice_restores 1 [⟨1, "a", false, "t0"⟩, ⟨2, "b", true, "t1"⟩]
    (by decide)).2 "1" (by decide)⟩

/-! ## Deleting and unknown ids -/

/-- C5: for a collection that holds a record with the requested id, a delete whose
write succeeds responds 200 with `Todo deleted successfully`. The stored collection
becomes the old one without the records of that id: no record of that id is left,
every other record stays, in the original order. With distinct ids exactly the one
record is taken out, and deleting the only record leaves the empty array. Every
stored id can be requested, by any path segment that `parseInt` reads as it. -/
theorem delete_removes_record (n : Int) (file : List Todo) (hmem : n ∈ ids file) :
    (∃ param, parseInt param = .finite n) ∧
    ∀ param, parseInt param = .finite n →
      ∃ file' : List Todo,
        deleteTodo param .written file =
          (.responded 200 (.message "Todo deleted successfully"), file') ∧
        file' = file.filter (fun t => t.id.val != n) ∧
        n ∉ ids file' ∧ file'.Sublist file ∧ (∀ t ∈ file, t.id.val ≠ n → t ∈ file') ∧
        ((ids file).Nodup →
          ∃ pre r post, file = pre ++ r :: post ∧ r.id.val = n ∧ file' = pre ++ post) ∧
        (∀ r, file = [r] → file' = []) := by
  refine ⟨parseInt_onto n (isDouble_of_mem n file hmem), ?_⟩
  intro param hparse
  refine ⟨_, deleteTodo_found param n file hparse hmem, rfl, ?_, List.filter_sublist _, ?_,
    fun hnodup => filter_of_nodup n file hnodup hmem, ?_⟩
  · simp [ids, List.mem_filter]
  · intro t ht hne
    exact List.mem_filter.2 ⟨ht, by simpa using hne⟩
  · intro r hr
    subst hr
    have hid : n = r.id.val := by simpa [ids] using hmem
    subst hid
    simp [List.filter_cons]

/-- Witness for C5: deleting the only record leaves the empty array. -/
theorem delete_removes_record_witness :
    parseInt "7" = .finite 7 ∧
    deleteTodo "7" .written [⟨7, "a", true, "t0"⟩] =
      (.responded 200 (.message "Todo deleted successfully"), []) := by
  obtain ⟨file', hdel, _, _, _, _, _, hsingle⟩ := (delete_removes_record 7
    [⟨7, "a", true, "t0"⟩] (by decide)).2 "7" (by decide)
  rw [hsingle _ rfl] at hdel
  exact ⟨by decide, hdel⟩

/-- C6, as stated, fails: the integer 9007199254740993 is the id of no record of the
collection that holds the single id 9007199254740992, yet the path segment
`9007199254740993` is read by `parseInt` as the nearest double, 9007199254740992, so
toggle and delete find that record and respond 200. -/
theorem unknown_id_counterexample :
    digitsValue 10 "9007199254740993".data = 9007199254740993 ∧
    (9007199254740993 : Int) ∉ ids [⟨9007199254740992, "a", false, "t0"⟩] ∧
    parseInt "9007199254740993" = .finite 9007199254740992 ∧
    putTodo "9007199254740993" .written [⟨9007199254740992, "a", false, "t0"⟩] =
      (.responded 200 (.todo ⟨9007199254740992, "a", true, "t0"⟩),
        [⟨9007199254740992, "a", true, "t0"⟩]) ∧
    deleteTodo "9007199254740993" .written [⟨9007199254740992, "a", false, "t0"⟩] =
      (.responded 200 (.message "Todo deleted successfully"), []) := by
  decide

/-- C6, amended: for an integer id that a JavaScript number represents (a double,
as 9999 is) and that no record of the collection has, toggle and delete both
respond 404 with `Todo not found` and leave the stored collection as it is, however
a write would have ended. Every such id can be requested, by any path segment that
`parseInt` reads as it. -/
theorem unknown_id_not_found (n : Int) (file : List Todo) (hn : isDouble n)
    (hnot : n ∉ ids file) :
    (∃ param, parseInt param = .finite n) ∧
    ∀ (param : String) (w : WriteResult), parseInt param = .finite n →
      putTodo param w file = (.responded 404 (.error "Todo not found"), file) ∧
      deleteTodo param w file = (.responded 404 (.error "Todo not found"), file) := by
  refine ⟨parseInt_onto n hn, ?_⟩
  intro param w hparse
  have hnone : ∀ t ∈ file, strictEq t.id (parseInt param) = false := by
    rw [hparse]
    exact strictEq_of_not_mem n file hnot
  exact ⟨putTodo_not_found param w file hnone, deleteTodo_not_found param w file hnone⟩

/-- Witness for C6: the id 9999 in a collection holding the ids 1 and 2. -/
theorem unknown_id_not_found_witness :
    parseInt "9999" = .finite 9999 ∧ isDouble 9999 ∧
    (9999 : Int) ∉ ids [⟨1, "a", false, "t0"⟩, ⟨2, "b", true, "t1"⟩] ∧
    putTodo "9999" .written [⟨1, "a", false, "t0"⟩, ⟨2, "b", true, "t1"⟩] =
      (.responded 404 (.error "Todo not found"),
        [⟨1, "a", false, "t0"⟩, ⟨2, "b", true, "t1"⟩]) ∧
    deleteTodo "9999" .written [⟨1, "a", false, "t0"⟩, ⟨2, "b", true, "t1"⟩] =
      (.responded 404 (.error "Todo not found"),
        [⟨1, "a", false, "t0"⟩, ⟨2, "b", true, "t1"⟩]) :=
  ⟨by decide, by decide, by decide, (unknown_id_not_found 9999
    [⟨1, "a", false, "t0"⟩, ⟨2, "b", true, "t1"⟩] (by decide) (by decide)).2 "9999" .written
    (by decide)⟩

/-- C7, as stated, fails: the segment `1abc` is not a decimal integer, yet `parseInt`
reads its leading digit and yields 1, so toggle and delete find the record with id 1
and respond 200. -/
theorem non_numeric_segment_counterexample :
    ("1abc".data.all fun c => (digitValue 10 c).isSome) = false ∧
    parseInt "1abc" = .finite 1 ∧
    putTodo "1abc" .written [⟨1, "a", false, "t0"⟩] =
      (.responded 200 (.todo ⟨1, "a", true, "t0"⟩), [⟨1, "a", true, "t0"⟩]) ∧
    deleteTodo "1abc" .written [⟨1, "a", false, "t0"⟩] =
      (.responded 200 (.message "Todo deleted successfully"), []) := by
  decide

/-- C7, amended: for a path segment that, after its leading white space and one
optional sign, does not start with a decimal digit (such as `abc`), the parsed id is
not-a-number, it is equal to the id of no record, and toggle and delete respond 404
with `Todo not found`, leaving the stored collection as it is. -/
theorem non_numeric_segment_not_found (seg : String) (w : WriteResult) (file : List Todo)
    (hstart : ∀ c, (digitsStart seg).head? = some c → digitValue 10 c = none) :
    parseInt seg = .nan ∧
    (∀ t ∈ file, strictEq t.id (parseInt seg) = false) ∧
    putTodo seg w file = (.responded 404 (.error "Todo not found"), file) ∧
    deleteTodo seg w file = (.responded 404 (.error "Todo not found"), file) := by
  have hnan := parseInt_eq_nan_of_no_digit seg hstart
  have hnone : ∀ t ∈ file, strictEq t.id (parseInt seg) = false := by
    intro t _
    rw [hnan]
    rfl
  exact ⟨hnan, hnone, putTodo_not_found seg w file hnone, deleteTodo_not_found seg w file hnone⟩

/-- Witness for C7: the segment `abc` against a collection holding the id 1. -/
theorem non_numeric_segment_not_found_witness :
    digitsStart "abc" = ['a', 'b', 'c'] ∧
    parseInt "abc" = .nan ∧
    (∀ t ∈ [(⟨1, "a", false, "t0"⟩ : Todo)], strictEq t.id (parseInt "abc") = false) ∧
    putTodo "abc" .written [⟨1, "a", false, "t0"⟩] =
      (.responded 404 (.error "Todo not found"), [⟨1, "a", false, "t0"⟩]) ∧
    deleteTodo "abc" .written [⟨1, "a", false, "t0"⟩] =
      (.responded 404 (.error "Todo not found"), [⟨1, "a", false, "t0"⟩]) := by
  have hstart : digitsStart "abc" = ['a', 'b', 'c'] := by decide
  refine ⟨hstart, non_numeric_segment_not_found "abc" .written [⟨1, "a", false, "t0"⟩] ?_⟩
  intro c hc
  rw [hstart] at hc
  simp only [List.head?_cons, Option.some.injEq] at hc
  subst hc
  decide

/-! ## Ids across requests -/

/-- C8 fails on the code: the collection with the single id 9007199254740992
(`2 ^ 53`) has pairwise distinct ids, and after a create with valid text whose write
succeeds it holds that id twice. -/
theorem create_at_two_pow_53_duplicates_id :
    (ids [⟨9007199254740992, "a", false, "t0"⟩]).Nodup ∧
    ids (handle 100000 (.create (.string "c") "t1") .written
      [⟨9007199254740992, "a", false, "t0"⟩]).2 = [9007199254740992, 9007199254740992] ∧
    ¬ (ids (handle 100000 (.create (.string "c") "t1") .written
      [⟨9007199254740992, "a", false, "t0"⟩]).2).Nodup := by
  have h : handle 100000 (.create (.string "c") "t1") .written
      [⟨9007199254740992, "a", false, "t0"⟩] =
      (.responded 201 (.todo ⟨9007199254740992, "c", false, "t1"⟩),
        [⟨9007199254740992, "a", false, "t0"⟩, ⟨9007199254740992, "c", false, "t1"⟩]) :=
    postTodo_at_two_pow_53
  rw [h]
  exact ⟨by decide, by decide, by decide⟩

/-- C10: ids can be reused. After create, create, delete of the record with the
maximum id 2 and one more create, the last record gets the id 2 again. But when,
after a successful delete of id `d`, a surviving record holds an id that is at least
`d`, every next create that assigns an id, that is, responds 201, assigns one
greater than `d`, so one different from it; and the next create does respond 201
when its text is valid, its write succeeds and the collection is not too long for
the call of `Math.max`. -/
theorem id_reuse_only_after_deleting_maximum :
    serve 100000 [(.create (.string "a") "t0", .written), (.create (.string "b") "t1", .written),
        (.delete "2", .written), (.create (.string "c") "t2", .written)] [] =
      ([.responded 201 (.todo ⟨1, "a", false, "t0"⟩),
        .responded 201 (.todo ⟨2, "b", false, "t1"⟩),
        .responded 200 (.message "Todo deleted successfully"),
        .responded 201 (.todo ⟨2, "c", false, "t2"⟩)],
       [⟨1, "a", false, "t0"⟩, ⟨2, "c", false, "t2"⟩]) ∧
    (∀ (maxArgs : Nat) (param : String) (d : Int) (file : List Todo),
      parseInt param = .finite d → d ∈ ids file →
      (∃ r ∈ (deleteTodo param .written file).2, d ≤ r.id.val) →
      (∀ (text : JsValue) (now : String) (w : WriteResult) (body : Body) (file' : List Todo),
        postTodo maxArgs text now w (deleteTodo param .written file).2 =
          (.responded 201 body, file') →
        ∃ t : Todo, body = .todo t ∧ file' = (deleteTodo param .written file).2 ++ [t] ∧
          d < t.id.val ∧ t.id.val ≠ d) ∧
      (∀ s now : String, trim s ≠ "" → (deleteTodo param .written file).2.length ≤ maxArgs →
        ∃ t : Todo,
          postTodo maxArgs (.string s) now .written (deleteTodo param .written file).2 =
            (.responded 201 (.todo t), (deleteTodo param .written file).2 ++ [t]) ∧
          d < t.id.val ∧ t.id.val ≠ d)) := by
  refine ⟨by decide, ?_⟩
  intro maxArgs param d file hparse hmem hsurv
  obtain ⟨r, hr, hle⟩ := hsurv
  have hrne : r.id.val ≠ d := by
    rw [deleteTodo_found param d file hparse hmem] at hr
    have := (List.mem_filter.1 hr).2
    simpa using this
  have hgt : ∀ id : JsInt, nextId maxArgs (deleteTodo param .written file).2 = some id →
      d < id.val := by
    intro id hid
    have := nextId_ge maxArgs _ id hid r hr
    omega
  constructor
  · intro text now w body file' hpost
    obtain ⟨s, id, _, _, _, hid, hbody, hfile⟩ := postTodo_created maxArgs text now w _ body file' hpost
    have := hgt id hid
    exact ⟨_, hbody, hfile, this, by simp only; omega⟩
  · intro s now hvalid hlen
    obtain ⟨id, hid⟩ := nextId_isSome maxArgs _ hlen
    have := hgt id hid
    exact ⟨_, postTodo_valid maxArgs s now _ id hvalid hid, this, by simp only; omega⟩

/-- Witness for C10: deleting id 1 while id 3 survives; the next create assigns an id
greater than 1. -/
theorem id_reuse_only_after_deleting_maximum_witness :
    ∃ t : Todo,
      postTodo 100000 (.string "c") "t2" .written
        (deleteTodo "1" .written [⟨1, "a", false, "t0"⟩, ⟨3, "b", false, "t1"⟩]).2 =
        (.responded 201 (.todo t),
          (deleteTodo "1" .written [⟨1, "a", false, "t0"⟩, ⟨3, "b", false, "t1"⟩]).2 ++ [t]) ∧
      1 < t.id.val ∧ t.id.val ≠ 1 :=
  (id_reuse_only_after_deleting_maximum.2 100000 "1" 1
    [⟨1, "a", false, "t0"⟩, ⟨3, "b", false, "t1"⟩] (by decide) (by decide)
    ⟨⟨3, "b", false, "t1"⟩, by decide, by decide⟩).2 "c" "t2" (by decide) (by decide)

end TodoApi
